import Mathlib

/-!
Verification development for the substitute-teacher assignment engine
(`SubstituteManager` class): CSV repair, timetable/roster parsing, the
period resolver, the greedy assignment run, persistence of logs and
warnings, and the post-hoc verification checks.

The JavaScript string and collection primitives used by the source are
modelled at the character level: `split` on a one-character separator,
`join`, `trim`, `toLowerCase`, `parseInt`, and ES `Map`s as association
lists with insert-or-replace-in-place semantics (matching `Map.set`).
-/

namespace SubMgr

/-- Splitting a character list at every occurrence of a separator character,
with the semantics of JavaScript `String.prototype.split` for a
one-character separator: the empty string splits to `[""]`, and a trailing
separator yields a trailing empty piece. -/
def splitOnChar (c : Char) : List Char → List (List Char)
  | [] => [[]]
  | x :: xs =>
    let r := splitOnChar c xs
    if x = c then [] :: r
    else
      match r with
      | [] => [[x]]
      | h :: t => (x :: h) :: t

/-- Joining pieces with a separator character, the inverse direction of
`splitOnChar` (JavaScript `Array.prototype.join` with a one-character
separator). -/
def intercalateChar (c : Char) : List (List Char) → List Char
  | [] => []
  | [p] => p
  | p :: ps => p ++ c :: intercalateChar c ps

/-- String-level wrapper for `splitOnChar`. -/
def jsSplit (s : String) (c : Char) : List String :=
  (splitOnChar c s.toList).map String.mk

/-- String-level wrapper for `intercalateChar`. -/
def jsJoin (c : Char) (l : List String) : String :=
  String.mk (intercalateChar c (l.map String.toList))

/-- Number of occurrences of a character in a string. -/
def countChar (c : Char) (s : String) : Nat :=
  s.toList.count c

/-- JavaScript `trim`, character-level (the core positional `String.trim`
is not kernel-reducible). -/
def jsTrim (s : String) : String :=
  String.mk (((s.toList.dropWhile Char.isWhitespace).reverse.dropWhile
      Char.isWhitespace).reverse)

/-- JavaScript `toLowerCase` for the ASCII range, character-level. -/
def jsToLower (s : String) : String :=
  String.mk (s.toList.map Char.toLower)

/-- JavaScript `toUpperCase` for the ASCII range, character-level. -/
def jsToUpper (s : String) : String :=
  String.mk (s.toList.map Char.toUpper)

/-- JavaScript `startsWith`, character-level. -/
def jsStartsWith (s pre : String) : Bool :=
  pre.toList.isPrefixOf s.toList

/-- Collapse every maximal whitespace run to one space
(the regex replacement of all whitespace runs in `normalizeName`). -/
def collapseWSAux : Bool → List Char → List Char
  | _, [] => []
  | prevWS, c :: rest =>
    if c.isWhitespace then
      if prevWS then collapseWSAux true rest
      else ' ' :: collapseWSAux true rest
    else c :: collapseWSAux false rest

/-- Model of JavaScript `parseInt` applied to a string: skip surrounding
whitespace, read an optional sign and then a maximal run of decimal
digits; `none` when no digit is found (`NaN`). Trailing non-digit
characters are ignored, as in JavaScript. -/
def parseIntJS (s : String) : Option Int :=
  let cs := (jsTrim s).toList
  let signAndRest : Int × List Char :=
    match cs with
    | '-' :: r => (-1, r)
    | '+' :: r => (1, r)
    | r => (1, r)
  let digits := signAndRest.2.takeWhile Char.isDigit
  if digits.isEmpty then none
  else some (signAndRest.1 * (digits.foldl (fun acc c => acc * 10 + (c.toNat - 48)) 0 : Nat))

/-- Source `normalizeName`: trim, lower-case, and collapse every run of
whitespace to a single space. -/
def normalizeName (name : String) : String :=
  String.mk (collapseWSAux false ((jsToLower (jsTrim name)).toList))

/-- Source `normalizeDay`: trim, lower-case, and map a three-letter prefix
through the weekday abbreviation table; unrecognized tokens pass through. -/
def normalizeDay (day : String) : String :=
  let normalized := jsToLower (jsTrim day)
  let shortDay := normalized.take 3
  if shortDay = "mon" then "monday"
  else if shortDay = "tue" then "tuesday"
  else if shortDay = "wed" then "wednesday"
  else if shortDay = "thu" then "thursday"
  else if shortDay = "fri" then "friday"
  else if shortDay = "sat" then "saturday"
  else if shortDay = "sun" then "sunday"
  else normalized

/-- JavaScript `String.prototype.includes`: substring containment. -/
def containsSub (s sub : String) : Bool :=
  (s.toList.tails).any (fun t => sub.toList.isPrefixOf t)

/-- The fixed class-column order of the timetable file
(columns 2..16 after `Day` and `Period`). -/
def classesList : List String :=
  ["10A", "10B", "10C", "9A", "9B", "9C", "8A", "8B", "8C",
   "7A", "7B", "7C", "6A", "6B", "6C"]

/-- The source constant `MAX_DAILY_WORKLOAD`. -/
def MAX_DAILY_WORKLOAD : Nat := 6

/-- Association-list insert-or-replace keeping the key position, the
semantics of `Map.set` / JavaScript object property assignment. -/
def setKeyG {κ α : Type} [DecidableEq κ] : List (κ × α) → κ → α → List (κ × α)
  | [], k, v => [(k, v)]
  | (k0, v0) :: rest, k, v =>
    if k0 = k then (k0, v) :: rest else (k0, v0) :: setKeyG rest k v

/-- Association-list lookup (`Map.get`), taking the first matching key. -/
def lookupKeyG {κ α : Type} [DecidableEq κ] (m : List (κ × α)) (k : κ) : Option α :=
  (m.find? (fun e => e.1 = k)).map (fun e => e.2)

/-- Teacher record as loaded from the teacher-directory JSON file
(`loadTeachers`). The fields `gradeLevel`, `isRegular` and `id` are not
read by the live assignment path and are omitted from the model. -/
structure Teacher where
  name : String
  phone : String
  variations : List String
deriving Repr, DecidableEq

/-- Schedule entry: the `{day, period, className}` records held by the
`teacherClasses` map built from the timetable and by the declared-schedule
mapping loaded from the schedules JSON file. -/
structure SchedEntry where
  day : String
  period : Int
  className : String
deriving Repr, DecidableEq

/-- Candidate period produced by the period resolver
(`getAllPeriodsForTeacherWithDiagnostics`), tagged with its source. -/
structure PeriodCand where
  period : Int
  className : String
  source : String
deriving Repr, DecidableEq

/-- Output assignment record (`SubstituteAssignment`). -/
structure SubstituteAssignment where
  originalTeacher : String
  period : Int
  className : String
  substitute : String
  substitutePhone : String
deriving Repr, DecidableEq

/-- Process log entry. The source also carries `timestamp`, `durationMs`
and an optional structured `data` payload; those are wall-clock or
diagnostic-only values outside the model. -/
structure ProcessLog where
  action : String
  details : String
  status : String
deriving Repr, DecidableEq

/-- Verification report returned by the three verification checks. -/
structure VerificationReport where
  check : String
  status : String
  details : String
deriving Repr, DecidableEq

/-- Raw timetable row as consumed by `findPeriodsInTimetable` (fields
`Day`, `Teacher`, `Period` and one cell per class column; missing fields
are the empty string, matching the falsy default in the source). -/
structure TimetableEntry where
  day : String
  teacher : String
  period : String
  cells : List (String × String)
deriving Repr, DecidableEq

/-- Entry of the engine's `allAssignments` list, as read by
`verifyAvailability`. -/
structure VAssign where
  day : String
  period : Int
  className : String
  substitute : String
deriving Repr, DecidableEq

/-- Result of one `autoAssignSubstitutes` run. -/
structure RunResult where
  assignments : List SubstituteAssignment
  warnings : List String
  logs : List ProcessLog
deriving Repr, DecidableEq

/-- The two views built from the timetable by `parseTimetable`:
`day → period → teachers` and the flattened
`teacher → {day, period, className}` entry list (entries in push order). -/
structure TimetableModel where
  schedule : List ((String × Int) × List String)
  teacherClasses : List (String × SchedEntry)
deriving Repr, DecidableEq

/-- An `empty` cell (case-insensitive) is no assignment; any other
non-empty cell is a normalized teacher name, as in `parseTimetable`. -/
def parseCell (t : String) : Option String :=
  if t ≠ "" ∧ jsToLower (jsTrim t) ≠ "empty" then some (normalizeName t) else none

/-- One timetable row: day, period and the filtered teacher list; `none`
when the row has fewer than two columns or a non-numeric period. -/
def rowModel (cols : List String) : Option (String × Int × List String) :=
  match cols with
  | c0 :: c1 :: rest =>
    match parseIntJS c1 with
    | none => none
    | some period => some (normalizeDay c0, period, rest.filterMap parseCell)
  | _ => none

/-- Source `parseTimetable`: skip the header row, and for each remaining
row record the `day → period → teachers` view and, for each teacher at
index `idx` of the FILTERED teacher list, a `teacherClasses` entry with
the class name at index `idx` of the fixed class-column order. -/
def parseTimetable (content : String) : TimetableModel :=
  let rows := ((jsSplit content '\n').filter (fun l => jsTrim l ≠ "")).drop 1
  rows.foldl
    (fun model row =>
      match rowModel (jsSplit row ',') with
      | none => model
      | some (day, period, teachers) =>
        { schedule := setKeyG model.schedule (day, period) teachers,
          teacherClasses := model.teacherClasses ++
            teachers.enum.filterMap (fun e =>
              (classesList.get? e.1).map
                (fun cn => (e.2, SchedEntry.mk day period cn))) })
    (TimetableModel.mk [] [])

/-- All `teacherClasses` entries pushed for one teacher name, in push
order (`Map.get` on the accumulated per-name array). -/
def tcGet (tc : List (String × SchedEntry)) (name : String) : List SchedEntry :=
  (tc.filter (fun e => e.1 = name)).map (fun e => e.2)

/-- Source `parseSubstitutes`: one `Name,Phone` line per substitute;
blank lines skipped, fields trimmed, missing phone defaults to the empty
string, names normalized, later lines overwriting earlier ones. -/
def parseSubstitutes (content : String) : List (String × String) :=
  (jsSplit content '\n').foldl
    (fun m line =>
      if jsTrim line = "" then m
      else
        let items := (jsSplit line ',').map jsTrim
        let name := items.headD ""
        let phone := items.getD 1 ""
        if name ≠ "" then setKeyG m (normalizeName name) phone else m)
    []

/-- Source `fixCSVContent` quote phase: a line with an odd number of
quote characters has all its quotes removed. -/
def stripOddQuotes (line : String) : String :=
  if countChar '"' line % 2 ≠ 0 then String.mk (line.toList.filter (fun c => c ≠ '"'))
  else line

/-- Expected column count chosen by `fixCSVContent` for one line: 17 for
a line starting with `Day,Period`, otherwise 3. -/
def expectedColumnsFor (line : String) : Nat :=
  if jsStartsWith line "Day,Period" then 17 else 3

/-- Source `fixCSVContent`, one line: strip quotes when unbalanced, then
truncate a line with too many commas to the expected column count, or pad
a non-blank line with too few commas with trailing commas. -/
def fixLine (line : String) : String :=
  if expectedColumnsFor (stripOddQuotes line) - 1 < countChar ',' (stripOddQuotes line) then
    jsJoin ',' ((jsSplit (stripOddQuotes line) ',').take
      (expectedColumnsFor (stripOddQuotes line)))
  else if countChar ',' (stripOddQuotes line) < expectedColumnsFor (stripOddQuotes line) - 1
      ∧ jsTrim (stripOddQuotes line) ≠ "" then
    stripOddQuotes line ++ String.mk (List.replicate
      (expectedColumnsFor (stripOddQuotes line) - 1 -
        countChar ',' (stripOddQuotes line)) ',')
  else stripOddQuotes line

/-- Source `fixCSVContent`: apply `fixLine` to every line. -/
def fixCSVContent (content : String) : String :=
  jsJoin '\n' ((jsSplit content '\n').map fixLine)

/-- Declared-schedule lookup: `schedules.get(name) || []`. -/
def schedGet (schedules : List (String × List SchedEntry)) (k : String) : List SchedEntry :=
  (lookupKeyG schedules k).getD []

/-- Source `checkAvailability`: a substitute is free in a period unless
the declared-schedule mapping for their lower-cased name has an entry for
this day (case-insensitive) and period. -/
def checkAvailability (schedules : List (String × List SchedEntry))
    (sub : Teacher) (period : Int) (day : String) : Bool :=
  !((schedGet schedules (jsToLower sub.name)).any
      (fun s => jsToLower s.day == jsToLower day && s.period == period))

/-- Source `createSubstituteArray`: the substitute pool is the subset of
teacher-directory records with a non-empty phone number. -/
def createSubstituteArray (teachers : List Teacher) : List Teacher :=
  teachers.filter (fun t => t.phone ≠ "" ∧ jsTrim t.phone ≠ "")

/-- Source `findTeacherByName`: first teacher whose name or one of whose
variations matches the lower-cased, trimmed query. -/
def findTeacherByName (teachers : List Teacher) (name : String) : Option Teacher :=
  let normalized := jsTrim (jsToLower name)
  teachers.find? (fun t =>
    jsTrim (jsToLower t.name) = normalized ∨
    t.variations.any (fun v => jsTrim (jsToLower v) = normalized))

/-- Deduplication key of the period resolver: the string
`period ++ "-" ++ className`. -/
def keyOf (p : PeriodCand) : String :=
  toString p.period ++ "-" ++ p.className

/-- One step of the resolver's deduplication over its `Map`: a new key is
inserted; an existing key is overwritten only when the incoming entry's
source starts with `special`. -/
def dedupeStep (m : List (String × PeriodCand)) (p : PeriodCand) :
    List (String × PeriodCand) :=
  if (lookupKeyG m (keyOf p)).isSome then
    if jsStartsWith p.source "special" then setKeyG m (keyOf p) p else m
  else m ++ [(keyOf p, p)]

/-- The resolver's deduplication map after processing all candidates. -/
def dedupeMap (ps : List PeriodCand) : List (String × PeriodCand) :=
  ps.foldl dedupeStep []

/-- The resolver's deduplicated candidate list
(`Array.from(uniqueMap.values())`, insertion order). -/
def dedupePeriods (ps : List PeriodCand) : List PeriodCand :=
  (dedupeMap ps).map (fun e => e.2)

/-- Hard-coded special case of the period resolver for Sir Mushtaque
Ahmed: fixed periods on Tuesday, empty otherwise. -/
def specialPeriodsFor (cleanName cleanDay : String) : List PeriodCand :=
  if containsSub cleanName "mushtaque" || containsSub cleanName "mushtaq" then
    if cleanDay = "tuesday" then
      [PeriodCand.mk 1 "10B" "special:timetable",
       PeriodCand.mk 2 "10B" "special:timetable",
       PeriodCand.mk 8 "10A" "special:timetable"]
    else []
  else []

/-- Cell text of a raw timetable row at a class column (`entry[className]`,
empty string when absent). -/
def cellGet (e : TimetableEntry) (cn : String) : String :=
  (lookupKeyG e.cells cn).getD ""

/-- Source `findPeriodsInTimetable`: scan raw timetable rows for the day,
requiring the row's teacher field and the class cell to contain the first
five characters of the teacher's name, with a numeric period. -/
def findPeriodsInTimetable (tt : List TimetableEntry) (teacherName day : String) :
    List PeriodCand :=
  let pfx := teacherName.take 5
  tt.foldl
    (fun acc entry =>
      if jsToLower entry.day = day ∧ containsSub (jsToLower entry.teacher) pfx ∧
          (parseIntJS entry.period).isSome then
        acc ++ classesList.filterMap (fun cn =>
          let cell := cellGet entry cn
          if cell ≠ "" ∧ containsSub (jsToLower cell) pfx then
            some (PeriodCand.mk ((parseIntJS entry.period).getD 0) cn "timetable")
          else none)
      else acc)
    []

/-- Source `getAllPeriodsForTeacherWithDiagnostics` (log callback elided):
special case, then class-map, declared-schedule and variation sources,
raw timetable scan only when all of those are empty, validity filter
(positive period, non-empty class name), and deduplication. -/
def getAllPeriodsForTeacher (tc : List (String × SchedEntry))
    (tt : List TimetableEntry) (teachers : List Teacher)
    (schedules : List (String × List SchedEntry))
    (teacherName day : String) : List PeriodCand :=
  let cleanName := jsTrim (jsToLower teacherName)
  let cleanDay := jsTrim (jsToLower day)
  let special := specialPeriodsFor cleanName cleanDay
  if !special.isEmpty then special
  else
    let classMapPeriods :=
      ((tcGet tc cleanName).filter (fun c => jsToLower c.day = cleanDay)).map
        (fun c => PeriodCand.mk c.period c.className "classMap")
    let schedulePeriods :=
      ((schedGet schedules cleanName).filter (fun e => jsToLower e.day = cleanDay)).map
        (fun e => PeriodCand.mk e.period (jsToUpper (jsTrim e.className)) "schedule")
    let variationPeriods :=
      match findTeacherByName teachers teacherName with
      | some t =>
        t.variations.foldl
          (fun acc v =>
            acc ++ ((schedGet schedules (jsTrim (jsToLower v))).filter
                (fun e => jsToLower e.day = cleanDay)).map
              (fun e => PeriodCand.mk e.period (jsToUpper (jsTrim e.className))
                ("variation:" ++ v)))
          []
      | none => []
    let allPeriods := classMapPeriods ++ schedulePeriods ++ variationPeriods
    let allPeriods :=
      if allPeriods.isEmpty then findPeriodsInTimetable tt cleanName cleanDay
      else allPeriods
    dedupePeriods (allPeriods.filter (fun p => 0 < p.period ∧ p.className ≠ ""))

/-- The source's weekday-name array indexed by `Date.getDay()`. -/
def daysArr : List String :=
  ["Sunday", "Monday", "Tuesday", "Wednesday", "Thursday", "Friday", "Saturday"]

/-- Decimal digit value of a character, `none` when not a digit. -/
def digitVal (c : Char) : Option Nat :=
  if c.isDigit then some (c.toNat - 48) else none

/-- Gregorian leap-year test. -/
def isLeap (y : Nat) : Bool :=
  (y % 4 = 0 ∧ y % 100 ≠ 0) ∨ y % 400 = 0

/-- Days in a month of the proleptic Gregorian calendar. -/
def daysInMonth (y m : Nat) : Nat :=
  if m = 2 then (if isLeap y then 29 else 28)
  else if m = 4 ∨ m = 6 ∨ m = 9 ∨ m = 11 then 30
  else 31

/-- Strict parse of a `YYYY-MM-DD` calendar date string. -/
def parseISODate (s : String) : Option (Nat × Nat × Nat) :=
  match s.toList with
  | [y1, y2, y3, y4, h1, m1, m2, h2, d1, d2] =>
    if h1 = '-' ∧ h2 = '-' then
      match digitVal y1, digitVal y2, digitVal y3, digitVal y4,
            digitVal m1, digitVal m2, digitVal d1, digitVal d2 with
      | some a, some b, some c, some d, some e, some f, some g, some h =>
        let y := ((a * 10 + b) * 10 + c) * 10 + d
        let m := e * 10 + f
        let dd := g * 10 + h
        if 1 ≤ m ∧ m ≤ 12 ∧ 1 ≤ dd ∧ dd ≤ daysInMonth y m then some (y, m, dd)
        else none
      | _, _, _, _, _, _, _, _ => none
    else none
  | _ => none

/-- Day of week (0 = Sunday) of a Gregorian date, Sakamoto's method. -/
def sakamoto (y m d : Nat) : Nat :=
  let t := [0, 3, 2, 5, 0, 3, 5, 1, 4, 6, 2, 4]
  let y := if m < 3 then y - 1 else y
  (y + y / 4 - y / 100 + y / 400 + t.getD (m - 1) 0 + d) % 7

/-- Source `getDayFromDate` (`days[new Date(s).getDay()].toLowerCase()`),
modelled for UTC `YYYY-MM-DD` date strings. A string that does not parse
makes `getDay()` return `NaN`, so `days[NaN]` is `undefined` and the
`toLowerCase` call throws; that path is modelled as the error case. -/
def getDayFromDate (dateString : String) : Except String String :=
  match parseISODate dateString with
  | some (y, m, d) => Except.ok (jsToLower (daysArr.getD (sakamoto y m d) ""))
  | none =>
    Except.error "TypeError: Cannot read properties of undefined (reading toLowerCase)"

/-- Run-local state of one `autoAssignSubstitutes` invocation: the
accumulated assignments, warnings and logs, the per-phone workload
counter `workloadMap` and the per-phone assigned-period set
`assignedPeriodsMap`. -/
structure RunState where
  assignments : List SubstituteAssignment
  warnings : List String
  logs : List ProcessLog
  wl : String → Nat
  ap : String → List Int

/-- Fresh run state carrying the logs accumulated so far. -/
def initRunState (logs : List ProcessLog) : RunState :=
  RunState.mk [] [] logs (fun _ => 0) (fun _ => [])

/-- The per-period substitute filter of `autoAssignSubstitutes`: not
already assigned this period, under the daily workload cap, and free per
the declared-schedule mapping. -/
def eligible (schedules : List (String × List SchedEntry)) (day : String)
    (st : RunState) (period : Int) (sub : Teacher) : Bool :=
  if period ∈ st.ap sub.phone then false
  else if MAX_DAILY_WORKLOAD ≤ st.wl sub.phone then false
  else checkAvailability schedules sub period day

/-- Selection of `availableForPeriod.sort((a,b) => wla - wlb)[0]`: the
sort is stable, so this is the first candidate of minimal workload. -/
def selectLeastLoaded (w : String → Nat) : List Teacher → Option Teacher
  | [] => none
  | t :: ts =>
    some (ts.foldl (fun best c => if w c.phone < w best.phone then c else best) t)

/-- Body of the per-period loop of `autoAssignSubstitutes`: filter the
pool, warn when empty, otherwise record the assignment and update the
workload counter and assigned-period set of the selected phone. -/
def processPeriod (schedules : List (String × List SchedEntry)) (day : String)
    (subsArr : List Teacher) (teacherName : String)
    (st : RunState) (pc : PeriodCand) : RunState :=
  match selectLeastLoaded st.wl (subsArr.filter (eligible schedules day st pc.period)) with
  | none =>
    { st with warnings := st.warnings ++
        ["No available substitutes for " ++ teacherName ++ ", period " ++
          toString pc.period] }
  | some sel =>
    { st with
      assignments := st.assignments ++
        [SubstituteAssignment.mk teacherName pc.period pc.className sel.name sel.phone],
      wl := fun p => if p = sel.phone then st.wl p + 1 else st.wl p,
      ap := fun p => if p = sel.phone then pc.period :: st.ap p else st.ap p,
      logs := st.logs ++
        [ProcessLog.mk "AssignmentMade"
          ("Assigned " ++ sel.name ++ " to " ++ teacherName ++ "'s period " ++
            toString pc.period) "info"] }

/-- Body of the per-absent-teacher loop of `autoAssignSubstitutes`:
resolve the teacher's periods, warn when none are found, otherwise run
the per-period loop. -/
def processTeacher (tc : List (String × SchedEntry)) (tt : List TimetableEntry)
    (teachers : List Teacher) (schedules : List (String × List SchedEntry))
    (day : String) (subsArr : List Teacher)
    (st : RunState) (teacherName : String) : RunState :=
  if (getAllPeriodsForTeacher tc tt teachers schedules
      (jsTrim (jsToLower teacherName)) day).isEmpty then
    { st with
      logs := st.logs ++
        [ProcessLog.mk "TeacherProcessing" ("Processing teacher: " ++ teacherName) "info"],
      warnings := st.warnings ++
        ["No periods found for " ++ teacherName ++ " on " ++ day] }
  else
    (getAllPeriodsForTeacher tc tt teachers schedules
        (jsTrim (jsToLower teacherName)) day).foldl
      (processPeriod schedules day subsArr teacherName)
      { st with logs := st.logs ++
          [ProcessLog.mk "TeacherProcessing" ("Processing teacher: " ++ teacherName) "info",
           ProcessLog.mk "PeriodsFound" ("Found periods for " ++ teacherName) "info"] }

/-- External data loaded during the run: the teacher directory and the
declared-schedule mapping, each either parsed records or a load error
(the thrown `Error loading ...` of `loadTeachers`/`loadSchedules`). -/
structure ExtData where
  teachersData : Except String (List Teacher)
  schedulesData : Except String (List (String × List SchedEntry))

/-- The try-block of `autoAssignSubstitutes` up to the end of the
assignment loop: day computation, data loading and the greedy allocation.
An error carries its message and the logs accumulated before the throw. -/
def runEngine (tc : List (String × SchedEntry)) (tt : List TimetableEntry)
    (ext : ExtData) (date : String) (absent : List String) :
    Except (String × List ProcessLog) RunResult :=
  let logs0 := [ProcessLog.mk "ProcessStart" "Starting auto-assignment process" "info"]
  match getDayFromDate date with
  | Except.error e => Except.error (e, logs0)
  | Except.ok day =>
    let logs1 := logs0 ++ [ProcessLog.mk "DayCalculation" ("Calculated day: " ++ day) "info"]
    match ext.teachersData with
    | Except.error e => Except.error (e, logs1)
    | Except.ok teachers =>
      match ext.schedulesData with
      | Except.error e => Except.error (e, logs1)
      | Except.ok schedules =>
        let logs2 := logs1 ++ [ProcessLog.mk "DataLoading" "Loaded required data" "info"]
        let subsArr := createSubstituteArray teachers
        let stR := absent.foldl
          (processTeacher tc tt teachers schedules day subsArr)
          (initRunState logs2)
        Except.ok (RunResult.mk stR.assignments stR.warnings stR.logs)

/-- Persisted artifacts: the assignments file, the logs file and the
warnings file (each `none` until first written, then the parsed JSON
object as a date-keyed association list), and the archive directory's
accumulated snapshots of prior log files. -/
structure FileState where
  assignedFile : Option (List SubstituteAssignment)
  logsFile : Option (List (String × List ProcessLog))
  warningsFile : Option (List (String × List String))
  logArchive : List (List (String × List ProcessLog))
deriving Repr, DecidableEq

/-- Source `saveAssignmentsToFile`: overwrite the assignments file with
the run's list. -/
def saveAssignmentsToFile (fs : FileState) (assignments : List SubstituteAssignment) :
    FileState :=
  { fs with assignedFile := some assignments }

/-- Source `saveLogs`: archive the existing logs file's content, then
overwrite the logs file with a fresh object holding only the current
date's logs. -/
def saveLogs (fs : FileState) (logs : List ProcessLog) (date : String) : FileState :=
  let archive :=
    match fs.logsFile with
    | some content => fs.logArchive ++ [content]
    | none => fs.logArchive
  { fs with logArchive := archive, logsFile := some [(date, logs)] }

/-- Source `saveWarnings`: load the existing warnings object (empty when
the file is missing), set this date's entry, and write it back. -/
def saveWarnings (fs : FileState) (warnings : List String) (date : String) : FileState :=
  let existing := fs.warningsFile.getD []
  { fs with warningsFile := some (setKeyG existing date warnings) }

/-- Persistent fields of one `SubstituteManager` instance. -/
structure ManagerState where
  schedule : List ((String × Int) × List String)
  substitutes : List (String × String)
  teacherClasses : List (String × SchedEntry)
  substituteAssignments : List (String × List SchedEntry)
  teacherWorkload : List (String × Nat)
  allAssignments : List VAssign
  allTeachers : List Teacher
  timetable : List TimetableEntry
deriving Repr, DecidableEq

/-- Effect of the run on the manager's fields: `loadTeachers` stores the
loaded directory in `allTeachers`; it runs only when the day computation
did not throw, and only when the directory itself loaded. No other field
is written by `autoAssignSubstitutes`. -/
def updateAllTeachers (st : ManagerState) (ext : ExtData) (date : String) :
    ManagerState :=
  match getDayFromDate date, ext.teachersData with
  | Except.ok _, Except.ok ts => { st with allTeachers := ts }
  | _, _ => st

/-- Source `autoAssignSubstitutes` without the manager-field effect: run
the try-block; on success persist assignments (when non-empty), then logs
and warnings, and return the result; on a thrown error append the
`ProcessError` log entry, persist logs and warnings, and return an empty
assignment list with the error message as the sole warning. -/
def autoAssignCore (tc : List (String × SchedEntry)) (tt : List TimetableEntry)
    (ext : ExtData) (fs : FileState) (date : String) (absent : List String) :
    RunResult × FileState :=
  match runEngine tc tt ext date absent with
  | Except.ok r =>
    let logsP := r.logs ++
      (if r.assignments.isEmpty then []
       else [ProcessLog.mk "AssignmentsSaved"
              ("Saved " ++ toString r.assignments.length ++ " assignments") "info"])
    let fs1 := if r.assignments.isEmpty then fs else saveAssignmentsToFile fs r.assignments
    let fs2 := saveWarnings (saveLogs fs1 logsP date) r.warnings date
    (RunResult.mk r.assignments r.warnings
       (logsP ++ [ProcessLog.mk "ProcessComplete" "Auto-assignment process completed" "info"]),
     fs2)
  | Except.error (e, logs0) =>
    let msg := "Error in auto-assign process: " ++ e
    let logsE := logs0 ++ [ProcessLog.mk "ProcessError" msg "error"]
    let fs2 := saveWarnings (saveLogs fs logsE date) [msg] date
    (RunResult.mk [] [msg] logsE, fs2)

/-- Source `autoAssignSubstitutes` on a manager instance: the run result,
the instance's fields after the run, and the file system after the run. -/
def autoAssignSubstitutesM (st : ManagerState) (ext : ExtData) (fs : FileState)
    (date : String) (absent : List String) :
    RunResult × ManagerState × FileState :=
  ((autoAssignCore st.teacherClasses st.timetable ext fs date absent).1,
   updateAllTeachers st ext date,
   (autoAssignCore st.teacherClasses st.timetable ext fs date absent).2)

/-- Membership test of the `substitutes` map (`Map.has`). -/
def substitutesHas (m : List (String × String)) (k : String) : Bool :=
  (lookupKeyG m k).isSome

/-- Source `verifySubstituteLimits`: no substitute holds more than
`MAX_SUBSTITUTE_ASSIGNMENTS = 3` entries of `substituteAssignments`. -/
def verifySubstituteLimits (st : ManagerState) : VerificationReport :=
  let violations :=
    (st.substituteAssignments.filter (fun e => 3 < e.2.length)).map (fun e => e.1)
  VerificationReport.mk "Substitute Assignment Limits"
    (if violations.length = 0 then "PASS" else "FAIL")
    (if 0 < violations.length then
      toString violations.length ++ " substitutes exceeded max assignments"
     else "All within limits")

/-- Source `verifyAvailability`: no entry of `allAssignments` puts a
substitute into a day/period where the schedule view already lists them. -/
def verifyAvailability (st : ManagerState) : VerificationReport :=
  let conflicts := st.allAssignments.filter (fun a =>
    ((lookupKeyG st.schedule (a.day, a.period)).getD []).contains a.substitute)
  VerificationReport.mk "Availability Validation"
    (if conflicts.length = 0 then "PASS" else "FAIL")
    (if 0 < conflicts.length then
      toString conflicts.length ++ " scheduling conflicts found"
     else "No conflicts")

/-- Source `verifyWorkloadDistribution`: no tracked teacher exceeds the
cap of 3 (substitute-pool members) or 2 (regular teachers). -/
def verifyWorkloadDistribution (st : ManagerState) : VerificationReport :=
  let overloaded :=
    (st.teacherWorkload.filter (fun e =>
      if substitutesHas st.substitutes e.1 then 3 < e.2 else 2 < e.2)).map
      (fun e => e.1)
  VerificationReport.mk "Workload Distribution"
    (if overloaded.length = 0 then "PASS" else "FAIL")
    (if 0 < overloaded.length then
      toString overloaded.length ++ " teachers overloaded"
     else "Fair distribution")

/-- Source `verifyAssignments`: the three checks, in order. -/
def verifyAssignments (st : ManagerState) : List VerificationReport :=
  [verifySubstituteLimits st, verifyAvailability st, verifyWorkloadDistribution st]

/-- Empty file system: no persisted artifact exists yet. -/
def fsEmpty : FileState := FileState.mk none none none []

/-- Timetable header line of the source data format. -/
def ttHeader : String :=
  "Day,Period,10A,10B,10C,9A,9B,9C,8A,8B,8C,7A,7B,7C,6A,6B,6C"

/-- Timetable of the spec's scenario: the single row
`Monday,1,Smith,Jones,empty,...`. -/
def ttScenario : String :=
  ttHeader ++
  "\nMonday,1,Smith,Jones,empty,empty,empty,empty,empty,empty,empty,empty,empty,empty,empty,empty,empty"

/-- Manager state after loading the scenario timetable and the substitute
roster `Doe,555-1111`, with all run-mutable fields empty. -/
def stScenario : ManagerState :=
  ManagerState.mk (parseTimetable ttScenario).schedule
    (parseSubstitutes "Doe,555-1111")
    (parseTimetable ttScenario).teacherClasses [] [] [] [] []

/-- External data when the teacher-directory and schedules files are
missing: both loaders return empty data. -/
def extEmptyDir : ExtData := ExtData.mk (Except.ok []) (Except.ok [])

/-- External data with Doe (phone 555-1111) in the teacher directory and
no declared schedules. -/
def extDoeDir : ExtData :=
  ExtData.mk (Except.ok [Teacher.mk "Doe" "555-1111" []]) (Except.ok [])

/-- Timetable putting teacher T into two classes of the same period. -/
def ttTwoClasses : String :=
  ttHeader ++
  "\nMonday,1,T,T,empty,empty,empty,empty,empty,empty,empty,empty,empty,empty,empty,empty,empty"

/-- Timetable giving teacher T seven periods on Monday. -/
def ttSevenPeriods : String :=
  ttHeader ++
  "\nMonday,1,T\nMonday,2,T\nMonday,3,T\nMonday,4,T\nMonday,5,T\nMonday,6,T\nMonday,7,T"

/-- Manager state loaded from `ttTwoClasses`. -/
def stTwoClasses : ManagerState :=
  ManagerState.mk [] [] (parseTimetable ttTwoClasses).teacherClasses [] [] [] [] []

/-- Manager state loaded from `ttSevenPeriods`. -/
def stSevenPeriods : ManagerState :=
  ManagerState.mk [] [] (parseTimetable ttSevenPeriods).teacherClasses [] [] [] [] []

/-- Teacher directory holding two distinct substitutes that share the
name Doe but have different phone numbers. -/
def extTwoDoes : ExtData :=
  ExtData.mk (Except.ok [Teacher.mk "Doe" "p1" [], Teacher.mk "Doe" "p2" []])
    (Except.ok [])

/-- Timetable row with an `empty` cell in the 10A column and Jones in the
10B column. -/
def ttShift : String :=
  ttHeader ++
  "\nMonday,1,empty,Jones,empty,empty,empty,empty,empty,empty,empty,empty,empty,empty,empty,empty,empty"

/-- Candidate list with two non-special entries sharing one key. -/
def dupNonSpecial : List PeriodCand :=
  [PeriodCand.mk 1 "10A" "classMap", PeriodCand.mk 1 "10A" "schedule"]

/-- Candidate list with two special-tagged entries sharing one key. -/
def dupSpecial : List PeriodCand :=
  [PeriodCand.mk 1 "10A" "special:x", PeriodCand.mk 1 "10A" "special:y"]

/-- Well-formed 17-field timetable data row (no quotes). -/
def row17 : String := "Monday,1,a,b,c,d,e,f,g,h,i,j,k,l,m,n,o"

/-- Candidates of the resolver input that carry a given dedup key. -/
def withKey (ps : List PeriodCand) (k : String) : List PeriodCand :=
  ps.filter (fun p => keyOf p = k)

/-- Candidates with a given dedup key whose source is tagged special. -/
def specialsOf (ps : List PeriodCand) (k : String) : List PeriodCand :=
  (withKey ps k).filter (fun p => jsStartsWith p.source "special")

/-- Amended dedup lookup spec: the surviving entry for a key is the LAST
special-tagged candidate when one exists, otherwise the FIRST candidate
with that key (first-write-wins for non-special duplicates). -/
def dedupSpecLookup (mv : Option PeriodCand) (ps : List PeriodCand) (k : String) :
    Option PeriodCand :=
  match (specialsOf ps k).getLast? with
  | some sp => some sp
  | none =>
    match mv with
    | some v => some v
    | none => (withKey ps k).head?

/-- Two assignment records do not double-book a substitute phone: they
differ in period or in phone. -/
def NoClash (a b : SubstituteAssignment) : Prop :=
  ¬(a.period = b.period ∧ a.substitutePhone = b.substitutePhone)

/-- Run-state invariant of the assignment loop: every recorded assignment
is reflected in the assigned-period set of its phone, no two recorded
assignments clash, the workload counter of each phone equals its recorded
assignment count, and no counter exceeds the daily cap. -/
def GoodState (st : RunState) : Prop :=
  (∀ a ∈ st.assignments, a.period ∈ st.ap a.substitutePhone) ∧
  List.Pairwise NoClash st.assignments ∧
  (∀ p, st.wl p = st.assignments.countP (fun a => decide (a.substitutePhone = p))) ∧
  (∀ p, st.wl p ≤ MAX_DAILY_WORKLOAD)

/-- Manager state with every field empty, as after construction. -/
def stBare : ManagerState := ManagerState.mk [] [] [] [] [] [] [] []

/-- C1. Counterexample to the claim as stated: with two teacher-directory
records sharing the name Doe under different phone numbers, and one
absent teacher holding two classes in the same period, the run returns
two distinct assignment records with the same `period` and the same
`substitute` name. The engine's dedup key is the phone, not the name. -/
theorem c1_period_substitute_clash_cex :
  (autoAssignSubstitutesM stTwoClasses extTwoDoes fsEmpty "2025-01-06" ["T"]).1.assignments =
    [SubstituteAssignment.mk "T" 1 "10A" "Doe" "p1",
     SubstituteAssignment.mk "T" 1 "10B" "Doe" "p2"] ∧
  SubstituteAssignment.mk "T" 1 "10A" "Doe" "p1" ≠
    SubstituteAssignment.mk "T" 1 "10B" "Doe" "p2" := by
  constructor
  · rfl
  · decide

/-- C2. Counterexample to the claim as stated: with two directory records
named Doe under different phones and seven affected periods, the run
records seven assignments whose `substitute` field is Doe — more than the
daily workload cap of 6, which the engine enforces per phone only. -/
theorem c2_name_workload_exceeds_cap_cex :
  MAX_DAILY_WORKLOAD <
    ((autoAssignSubstitutesM stSevenPeriods extTwoDoes fsEmpty "2025-01-06" ["T"]).1.assignments.countP
      (fun a => a.substitute == "Doe")) := by
  decide

/-- C3. Counterexample to the scenario as stated: with the timetable row
`Monday,1,Smith,Jones,empty,...`, the substitute roster `Doe,555-1111`
and no teacher-directory file, the Monday run for `["Smith"]` returns no
assignment and one warning — the candidate pool is built from the teacher
directory, not from the parsed roster. -/
theorem c3_roster_only_scenario_cex :
  (autoAssignSubstitutesM stScenario extEmptyDir fsEmpty "2025-01-06" ["Smith"]).1.assignments =
    [] ∧
  (autoAssignSubstitutesM stScenario extEmptyDir fsEmpty "2025-01-06" ["Smith"]).1.warnings =
    ["No available substitutes for Smith, period 1"] := by
  constructor
  · rfl
  · rfl

/-- C3. Amended scenario: with Doe (phone 555-1111) present in the
teacher directory instead, the Monday run for `["Smith"]` returns exactly
the claimed assignment and no warnings. -/
theorem c3_directory_scenario :
  (autoAssignSubstitutesM stScenario extDoeDir fsEmpty "2025-01-06" ["Smith"]).1.assignments =
    [SubstituteAssignment.mk "Smith" 1 "10A" "Doe" "555-1111"] ∧
  (autoAssignSubstitutesM stScenario extDoeDir fsEmpty "2025-01-06" ["Smith"]).1.warnings =
    [] := by
  constructor
  · rfl
  · rfl

/-- C4. Evaluation at the failing input: Jones sits in the 10B column,
but because `empty` cells are filtered out before the class array is
indexed, the schedule model records Jones with class name 10A — the class
name of the cell's position among the non-empty cells, not of its column. -/
theorem c4_empty_cell_shifts_class :
  tcGet (parseTimetable ttShift).teacherClasses "jones" =
    [SchedEntry.mk "monday" 1 "10A"] ∧
  classesList.getD 1 "" = "10B" := by
  constructor
  · rfl
  · rfl

/-- C6. Counterexample to the claim as stated: on a duplicate key with
two non-special entries, the FIRST-written entry survives, not the last;
and an entry tagged special IS overwritten by a later special entry. -/
theorem c6_last_write_wins_cex :
  dedupePeriods dupNonSpecial = [PeriodCand.mk 1 "10A" "classMap"] ∧
  dedupePeriods dupNonSpecial ≠ [PeriodCand.mk 1 "10A" "schedule"] ∧
  dedupePeriods dupSpecial = [PeriodCand.mk 1 "10A" "special:y"] := by
  refine ⟨rfl, ?_, rfl⟩
  decide

theorem splitOnChar_ne_nil (c : Char) (s : List Char) : splitOnChar c s ≠ [] := by
  cases s with
  | nil => simp [splitOnChar]
  | cons x xs =>
    by_cases hx : x = c
    · simp [splitOnChar, hx]
    · simp only [splitOnChar, if_neg hx]
      cases splitOnChar c xs <;> simp

theorem splitOnChar_length (c : Char) (s : List Char) :
    (splitOnChar c s).length = s.count c + 1 := by
  induction s with
  | nil => rfl
  | cons x xs ih =>
    by_cases hx : x = c
    · subst hx
      simp [splitOnChar, List.count_cons, ih]
    · cases hr : splitOnChar c xs with
      | nil => exact absurd hr (splitOnChar_ne_nil c xs)
      | cons h t =>
        have ihlen : (h :: t).length = xs.count c + 1 := by rw [← hr]; exact ih
        have hcx : ¬c = x := fun he => hx he.symm
        simp only [splitOnChar, if_neg hx, hr, List.length_cons, List.count_cons]
        simp only [List.length_cons] at ihlen
        simp [hcx, hx]
        omega

theorem splitOnChar_parts_no_sep (c : Char) (s : List Char) :
    ∀ part ∈ splitOnChar c s, c ∉ part := by
  induction s with
  | nil =>
    intro part hp
    have : part = [] := by simpa [splitOnChar] using hp
    rw [this]
    simp
  | cons x xs ih =>
    intro part hp
    by_cases hx : x = c
    · simp only [splitOnChar, if_pos hx] at hp
      rcases List.mem_cons.mp hp with h1 | h1
      · rw [h1]; simp
      · exact ih part h1
    · simp only [splitOnChar, if_neg hx] at hp
      cases hr : splitOnChar c xs with
      | nil => exact absurd hr (splitOnChar_ne_nil c xs)
      | cons h t =>
        rw [hr] at hp
        rcases List.mem_cons.mp hp with h1 | h1
        · rw [h1]
          intro hmem
          rcases List.mem_cons.mp hmem with h2 | h2
          · exact hx h2.symm
          · exact ih h (by rw [hr]; exact List.mem_cons_self _ _) h2
        · exact ih part (by rw [hr]; exact List.mem_cons_of_mem _ h1)

theorem splitOnChar_parts_subset (c : Char) (s : List Char) :
    ∀ part ∈ splitOnChar c s, ∀ x ∈ part, x ∈ s := by
  induction s with
  | nil =>
    intro part hp x hx
    have : part = [] := by simpa [splitOnChar] using hp
    rw [this] at hx
    exact absurd hx (List.not_mem_nil x)
  | cons y xs ih =>
    intro part hp x hx
    by_cases hy : y = c
    · simp only [splitOnChar, if_pos hy] at hp
      rcases List.mem_cons.mp hp with h1 | h1
      · rw [h1] at hx
        exact absurd hx (List.not_mem_nil x)
      · exact List.mem_cons_of_mem _ (ih part h1 x hx)
    · simp only [splitOnChar, if_neg hy] at hp
      cases hr : splitOnChar c xs with
      | nil => exact absurd hr (splitOnChar_ne_nil c xs)
      | cons h t =>
        rw [hr] at hp
        rcases List.mem_cons.mp hp with h1 | h1
        · rw [h1] at hx
          rcases List.mem_cons.mp hx with h2 | h2
          · rw [h2]; exact List.mem_cons_self _ _
          · exact List.mem_cons_of_mem _
              (ih h (by rw [hr]; exact List.mem_cons_self _ _) x h2)
        · exact List.mem_cons_of_mem _
            (ih part (by rw [hr]; exact List.mem_cons_of_mem _ h1) x hx)

theorem mem_intercalateChar (c x : Char) :
    ∀ (qs : List (List Char)), x ∈ intercalateChar c qs →
      x = c ∨ ∃ q ∈ qs, x ∈ q := by
  intro qs
  induction qs with
  | nil =>
    intro h
    exact absurd h (by simp [intercalateChar])
  | cons q qt ih =>
    intro h
    cases qt with
    | nil =>
      right
      exact ⟨q, List.mem_cons_self _ _, by simpa [intercalateChar] using h⟩
    | cons q2 t =>
      have h0 : x ∈ q ++ c :: intercalateChar c (q2 :: t) := h
      rcases List.mem_append.mp h0 with h1 | h1
      · right
        exact ⟨q, List.mem_cons_self _ _, h1⟩
      · rcases List.mem_cons.mp h1 with h2 | h2
        · left; exact h2
        · rcases ih h2 with h3 | ⟨q0, hq0, hx0⟩
          · left; exact h3
          · right; exact ⟨q0, List.mem_cons_of_mem _ hq0, hx0⟩

theorem intercalateChar_count (c : Char) :
    ∀ (qs : List (List Char)), qs ≠ [] → (∀ q ∈ qs, c ∉ q) →
      (intercalateChar c qs).count c = qs.length - 1 := by
  intro qs
  induction qs with
  | nil => intro h; exact absurd rfl h
  | cons q qt ih =>
    intro _ hq
    cases qt with
    | nil =>
      show q.count c = 0
      exact List.count_eq_zero.mpr (hq q (List.mem_cons_self _ _))
    | cons q2 t =>
      show (q ++ c :: intercalateChar c (q2 :: t)).count c = (q :: q2 :: t).length - 1
      rw [List.count_append]
      have h1 : q.count c = 0 := List.count_eq_zero.mpr (hq q (List.mem_cons_self _ _))
      have h2 := ih (by simp) (fun q0 hq0 => hq q0 (List.mem_cons_of_mem _ hq0))
      rw [h1, List.count_cons_self, h2]
      simp

theorem numFields_eq_count (s : String) :
    (jsSplit s ',').length = countChar ',' s + 1 := by
  unfold jsSplit countChar
  rw [List.length_map]
  exact splitOnChar_length ',' s.toList

theorem countChar_jsJoin_sep (ps : List String) (hne : ps ≠ [])
    (h : ∀ q ∈ ps, countChar ',' q = 0) :
    countChar ',' (jsJoin ',' ps) = ps.length - 1 := by
  show (intercalateChar ',' (ps.map String.toList)).count ',' = ps.length - 1
  have := intercalateChar_count ',' (ps.map String.toList) (by simpa using hne)
    (fun q hq => by
      rcases List.mem_map.mp hq with ⟨s0, hs0, rfl⟩
      exact List.count_eq_zero.mp (h s0 hs0))
  rw [this, List.length_map]

theorem countChar_jsJoin_zero (x : Char) (hxc : x ≠ ',') (ps : List String)
    (h : ∀ q ∈ ps, countChar x q = 0) : countChar x (jsJoin ',' ps) = 0 := by
  show (intercalateChar ',' (ps.map String.toList)).count x = 0
  rw [List.count_eq_zero]
  intro hmem
  rcases mem_intercalateChar ',' x _ hmem with h1 | ⟨q, hq, hxq⟩
  · exact hxc h1
  · rcases List.mem_map.mp hq with ⟨s0, hs0, rfl⟩
    exact (List.count_eq_zero.mp (h s0 hs0)) hxq

theorem countChar_append (c : Char) (s1 s2 : String) :
    countChar c (s1 ++ s2) = countChar c s1 + countChar c s2 := by
  unfold countChar
  rw [show (s1 ++ s2).toList = s1.toList ++ s2.toList from String.data_append s1 s2,
    List.count_append]

theorem countChar_stripOddQuotes (line : String)
    (h : countChar '"' line % 2 ≠ 0) :
    countChar '"' (stripOddQuotes line) = 0 := by
  unfold stripOddQuotes
  rw [if_pos h]
  show (line.toList.filter (fun c => c ≠ '"')).count '"' = 0
  rw [List.count_eq_zero]
  intro hm
  have := (List.mem_filter.mp hm).2
  simp at this

theorem jsSplit_parts_count (s : String) :
    ∀ q ∈ jsSplit s ',', countChar ',' q = 0 := by
  intro q hq
  rcases List.mem_map.mp hq with ⟨piece, hp, rfl⟩
  show piece.count ',' = 0
  exact List.count_eq_zero.mpr (splitOnChar_parts_no_sep ',' s.toList piece hp)

theorem jsSplit_parts_chars (s : String) :
    ∀ q ∈ jsSplit s ',', ∀ x ∈ q.toList, x ∈ s.toList := by
  intro q hq x hx
  rcases List.mem_map.mp hq with ⟨piece, hp, rfl⟩
  exact splitOnChar_parts_subset ',' s.toList piece hp x hx

/-- C7. Amended repair property: a line with an odd number of quote
characters has all quotes removed; the expected field count is per LINE —
17 only for a line starting with `Day,Period` (after quote handling), 3
for every other line; a line with more fields is truncated to that count,
a non-blank line with fewer fields is padded to it, and a blank line is
left unpadded. -/
theorem c7_fixline_characterization (line : String) :
    (countChar '"' line % 2 ≠ 0 → countChar '"' (fixLine line) = 0) ∧
    (jsSplit (fixLine line) ',').length =
      (if expectedColumnsFor (stripOddQuotes line) - 1 <
          countChar ',' (stripOddQuotes line) then
        expectedColumnsFor (stripOddQuotes line)
       else if countChar ',' (stripOddQuotes line) <
            expectedColumnsFor (stripOddQuotes line) - 1 ∧
            jsTrim (stripOddQuotes line) ≠ "" then
        expectedColumnsFor (stripOddQuotes line)
       else (jsSplit (stripOddQuotes line) ',').length) := by
  have hE3 : 3 ≤ expectedColumnsFor (stripOddQuotes line) := by
    unfold expectedColumnsFor
    split <;> omega
  constructor
  · intro hodd
    have hq0 := countChar_stripOddQuotes line hodd
    unfold fixLine
    split
    · apply countChar_jsJoin_zero '"' (by decide)
      intro q hq
      show q.toList.count '"' = 0
      rw [List.count_eq_zero]
      intro hx
      have hmem := jsSplit_parts_chars (stripOddQuotes line) q
        (List.take_subset _ _ hq) '"' hx
      exact (List.count_eq_zero.mp hq0) hmem
    · split
      · rw [countChar_append, hq0]
        have hrep : countChar '"' (String.mk (List.replicate
            (expectedColumnsFor (stripOddQuotes line) - 1 -
              countChar ',' (stripOddQuotes line)) ',')) = 0 := by
          show (List.replicate _ ',').count '"' = 0
          simp [List.count_replicate]
        rw [hrep]
      · exact hq0
  · unfold fixLine
    split
    · rename_i h1
      have hlen : (jsSplit (stripOddQuotes line) ',').length =
          countChar ',' (stripOddQuotes line) + 1 := numFields_eq_count _
      have htake : ((jsSplit (stripOddQuotes line) ',').take
          (expectedColumnsFor (stripOddQuotes line))).length =
          expectedColumnsFor (stripOddQuotes line) := by
        rw [List.length_take]
        omega
      have hne : (jsSplit (stripOddQuotes line) ',').take
          (expectedColumnsFor (stripOddQuotes line)) ≠ [] := by
        intro hnil
        rw [hnil] at htake
        simp at htake
        omega
      rw [numFields_eq_count,
        countChar_jsJoin_sep _ hne
          (fun q hq => jsSplit_parts_count _ q (List.take_subset _ _ hq)),
        htake]
      omega
    · rename_i h1
      split
      · rename_i h2
        obtain ⟨h2a, _⟩ := h2
        rw [numFields_eq_count, countChar_append]
        have hrep : countChar ',' (String.mk (List.replicate
            (expectedColumnsFor (stripOddQuotes line) - 1 -
              countChar ',' (stripOddQuotes line)) ',')) =
            expectedColumnsFor (stripOddQuotes line) - 1 -
              countChar ',' (stripOddQuotes line) := by
          show (List.replicate _ ',').count ',' = _
          simp [List.count_replicate]
        rw [hrep]
        omega
      · rfl

/-- C7 witness: a concrete line with an odd quote count is stripped of
its quotes and padded to the per-line expected count of three fields. -/
theorem c7_fixline_characterization_witness :
    countChar '"' (fixLine "a\"b") = 0 ∧
    (jsSplit (fixLine "a\"b") ',').length = 3 := by
  have h := c7_fixline_characterization "a\"b"
  refine ⟨h.1 (by decide), ?_⟩
  rw [h.2]
  decide

/-- C7. Counterexample to the claim as stated: a well-formed 17-field
timetable data row does not start with `Day,Period`, so the repair
routine treats its expected field count as 3 and truncates it — the
claimed per-file expected count of 17 for timetable rows holds only for
the header line. -/
theorem c7_timetable_row_truncated_cex :
  (jsSplit row17 ',').length = 17 ∧
  fixCSVContent row17 = "Monday,1,a" ∧
  (jsSplit (fixCSVContent row17) ',').length = 3 := by
  refine ⟨rfl, rfl, rfl⟩

/-- C8. Counterexample to the claim as stated for the logs file:
persisting logs and warnings for one date and then for a different date
leaves the logs mapping with only the later date — the earlier date's
entry is gone (its content went to the archive, not to the mapping). -/
theorem c8_logs_not_accumulated_cex :
  lookupKeyG
    ((saveWarnings
        (saveLogs
          (saveWarnings (saveLogs fsEmpty [ProcessLog.mk "A" "a" "info"] "2025-01-06")
            ["w1"] "2025-01-06")
          [ProcessLog.mk "B" "b" "info"] "2025-01-07")
        ["w2"] "2025-01-07").logsFile.getD [])
    "2025-01-06" = none ∧
  (saveWarnings
      (saveLogs
        (saveWarnings (saveLogs fsEmpty [ProcessLog.mk "A" "a" "info"] "2025-01-06")
          ["w1"] "2025-01-06")
        [ProcessLog.mk "B" "b" "info"] "2025-01-07")
      ["w2"] "2025-01-07").logsFile =
    some [("2025-01-07", [ProcessLog.mk "B" "b" "info"])] := by
  constructor
  · rfl
  · rfl

theorem lookupKeyG_setKeyG_self {κ α : Type} [DecidableEq κ]
    (m : List (κ × α)) (k : κ) (v : α) :
    lookupKeyG (setKeyG m k v) k = some v := by
  induction m with
  | nil => simp [setKeyG, lookupKeyG]
  | cons e rest ih =>
    obtain ⟨k0, v0⟩ := e
    by_cases hk : k0 = k
    · subst hk
      simp [setKeyG, lookupKeyG]
    · simp only [setKeyG, if_neg hk]
      simpa [lookupKeyG, List.find?, hk] using ih

theorem lookupKeyG_setKeyG_ne {κ α : Type} [DecidableEq κ]
    (m : List (κ × α)) (k : κ) (v : α) (k' : κ) (h : k' ≠ k) :
    lookupKeyG (setKeyG m k v) k' = lookupKeyG m k' := by
  have hke : decide (k = k') = false := decide_eq_false (fun he => h he.symm)
  induction m with
  | nil => simp [setKeyG, lookupKeyG, List.find?, hke]
  | cons e rest ih =>
    obtain ⟨k0, v0⟩ := e
    by_cases hk : k0 = k
    · subst hk
      simp only [setKeyG, if_pos rfl]
      simp [lookupKeyG, List.find?, hke]
    · simp only [setKeyG, if_neg hk]
      by_cases hk' : k0 = k'
      · simp [lookupKeyG, List.find?, hk']
      · simpa [lookupKeyG, List.find?, hk'] using ih

theorem updateAllTeachers_fields (st : ManagerState) (ext : ExtData) (date : String) :
    (updateAllTeachers st ext date).substituteAssignments = st.substituteAssignments ∧
    (updateAllTeachers st ext date).teacherWorkload = st.teacherWorkload ∧
    (updateAllTeachers st ext date).allAssignments = st.allAssignments := by
  unfold updateAllTeachers
  rcases getDayFromDate date with _ | _ <;> rcases ext.teachersData with _ | _ <;>
    exact ⟨rfl, rfl, rfl⟩

/-- C10. Noninterference of the parsed substitute-roster map: two manager
states that differ only in the `substitutes` map populated by
`parseSubstitutes` produce the same run result and the same persisted
files — the run derives its candidate pool from the teacher directory via
`createSubstituteArray` and never reads the roster map. -/
theorem c10_roster_noninterference (st : ManagerState) (r1 r2 : String)
    (ext : ExtData) (fs : FileState) (date : String) (absent : List String) :
    (autoAssignSubstitutesM { st with substitutes := parseSubstitutes r1 }
        ext fs date absent).1 =
      (autoAssignSubstitutesM { st with substitutes := parseSubstitutes r2 }
        ext fs date absent).1 ∧
    (autoAssignSubstitutesM { st with substitutes := parseSubstitutes r1 }
        ext fs date absent).2.2 =
      (autoAssignSubstitutesM { st with substitutes := parseSubstitutes r2 }
        ext fs date absent).2.2 :=
  ⟨rfl, rfl⟩

/-- C9. With the run-mutable verification inputs empty (as after
construction and `loadData`), any `autoAssignSubstitutes` run leaves them
empty — it mutates only run-local maps — so `verifyAssignments` returns
exactly three PASS reports, whatever the run produced. -/
theorem c9_verification_passes_after_run (st : ManagerState) (ext : ExtData)
    (fs : FileState) (date : String) (absent : List String)
    (h1 : st.substituteAssignments = []) (h2 : st.teacherWorkload = [])
    (h3 : st.allAssignments = []) :
    verifyAssignments (autoAssignSubstitutesM st ext fs date absent).2.1 =
      [VerificationReport.mk "Substitute Assignment Limits" "PASS" "All within limits",
       VerificationReport.mk "Availability Validation" "PASS" "No conflicts",
       VerificationReport.mk "Workload Distribution" "PASS" "Fair distribution"] := by
  have h := updateAllTeachers_fields st ext date
  show verifyAssignments (updateAllTeachers st ext date) = _
  unfold verifyAssignments verifySubstituteLimits verifyAvailability
    verifyWorkloadDistribution
  rw [h.1, h.2.1, h.2.2, h1, h2, h3]
  rfl

/-- C9 witness: on the freshly constructed manager, a run followed by
verification yields the three PASS reports. -/
theorem c9_verification_passes_after_run_witness :
    verifyAssignments (autoAssignSubstitutesM stBare extEmptyDir fsEmpty
        "2025-01-06" ["Smith"]).2.1 =
      [VerificationReport.mk "Substitute Assignment Limits" "PASS" "All within limits",
       VerificationReport.mk "Availability Validation" "PASS" "No conflicts",
       VerificationReport.mk "Workload Distribution" "PASS" "Fair distribution"] :=
  c9_verification_passes_after_run stBare extEmptyDir fsEmpty "2025-01-06" ["Smith"]
    rfl rfl rfl

/-- C5. A thrown error during the run is caught: the call returns an
empty assignment list with the error message as the sole warning, the
`ProcessError` entry is logged with status `error`, and logs and warnings
are still persisted for the date — the run never propagates the
exception. -/
theorem c5_error_caught_and_flushed (st : ManagerState) (ext : ExtData)
    (fs : FileState) (date : String) (absent : List String) (e : String)
    (logs0 : List ProcessLog)
    (h : runEngine st.teacherClasses st.timetable ext date absent =
      Except.error (e, logs0)) :
    (autoAssignSubstitutesM st ext fs date absent).1.assignments = [] ∧
    (autoAssignSubstitutesM st ext fs date absent).1.warnings =
      ["Error in auto-assign process: " ++ e] ∧
    ProcessLog.mk "ProcessError" ("Error in auto-assign process: " ++ e) "error" ∈
      (autoAssignSubstitutesM st ext fs date absent).1.logs ∧
    (autoAssignSubstitutesM st ext fs date absent).2.2.logsFile =
      some [(date, logs0 ++
        [ProcessLog.mk "ProcessError" ("Error in auto-assign process: " ++ e) "error"])] ∧
    lookupKeyG ((autoAssignSubstitutesM st ext fs date absent).2.2.warningsFile.getD [])
        date =
      some ["Error in auto-assign process: " ++ e] := by
  unfold autoAssignSubstitutesM autoAssignCore
  rw [h]
  refine ⟨rfl, rfl, ?_, rfl, ?_⟩
  · simp
  · exact lookupKeyG_setKeyG_self (fs.warningsFile.getD []) date
      ["Error in auto-assign process: " ++ e]

/-- C5 witness: a date string that does not parse makes the day
computation throw; the run catches it, returns the error as the sole
warning, and persists the error-status log entry for that date. -/
theorem c5_error_caught_and_flushed_witness :
    (autoAssignSubstitutesM stBare extEmptyDir fsEmpty "garbage" ["T"]).1.assignments = [] ∧
    (autoAssignSubstitutesM stBare extEmptyDir fsEmpty "garbage" ["T"]).1.warnings =
      ["Error in auto-assign process: " ++
        "TypeError: Cannot read properties of undefined (reading toLowerCase)"] ∧
    ProcessLog.mk "ProcessError"
        ("Error in auto-assign process: " ++
          "TypeError: Cannot read properties of undefined (reading toLowerCase)") "error" ∈
      (autoAssignSubstitutesM stBare extEmptyDir fsEmpty "garbage" ["T"]).1.logs ∧
    (autoAssignSubstitutesM stBare extEmptyDir fsEmpty "garbage" ["T"]).2.2.logsFile =
      some [("garbage",
        [ProcessLog.mk "ProcessStart" "Starting auto-assignment process" "info"] ++
        [ProcessLog.mk "ProcessError"
          ("Error in auto-assign process: " ++
            "TypeError: Cannot read properties of undefined (reading toLowerCase)") "error"])] ∧
    lookupKeyG
        ((autoAssignSubstitutesM stBare extEmptyDir fsEmpty "garbage" ["T"]).2.2.warningsFile.getD [])
        "garbage" =
      some ["Error in auto-assign process: " ++
        "TypeError: Cannot read properties of undefined (reading toLowerCase)"] :=
  c5_error_caught_and_flushed stBare extEmptyDir fsEmpty "garbage" ["T"]
    "TypeError: Cannot read properties of undefined (reading toLowerCase)"
    [ProcessLog.mk "ProcessStart" "Starting auto-assignment process" "info"] rfl

/-- C8. Amended persistence property: the warnings file accumulates one
record per date — two saves for different dates leave both entries, a
rerun for the same date overwrites only that date's entry — while the
logs file keeps only the latest save's date (the prior file content goes
to the archive, not to the mapping). -/
theorem c8_warnings_accumulate_logs_latest (fs : FileState) (d1 d2 : String)
    (l1 l2 : List ProcessLog) (w1 w2 : List String) (h : d1 ≠ d2) :
    lookupKeyG
        ((saveWarnings (saveLogs (saveWarnings (saveLogs fs l1 d1) w1 d1) l2 d2)
          w2 d2).warningsFile.getD []) d1 = some w1 ∧
    lookupKeyG
        ((saveWarnings (saveLogs (saveWarnings (saveLogs fs l1 d1) w1 d1) l2 d2)
          w2 d2).warningsFile.getD []) d2 = some w2 ∧
    (saveWarnings (saveLogs (saveWarnings (saveLogs fs l1 d1) w1 d1) l2 d2)
        w2 d2).logsFile = some [(d2, l2)] ∧
    lookupKeyG ((saveWarnings (saveWarnings fs w1 d1) w2 d1).warningsFile.getD [])
        d1 = some w2 := by
  refine ⟨?_, ?_, rfl, ?_⟩
  · show lookupKeyG
      (setKeyG (setKeyG (fs.warningsFile.getD []) d1 w1) d2 w2) d1 = some w1
    rw [lookupKeyG_setKeyG_ne _ _ _ _ h]
    exact lookupKeyG_setKeyG_self _ _ _
  · exact lookupKeyG_setKeyG_self _ _ _
  · show lookupKeyG
      (setKeyG (setKeyG (fs.warningsFile.getD []) d1 w1) d1 w2) d1 = some w2
    exact lookupKeyG_setKeyG_self _ _ _

theorem lookupKeyG_append {κ α : Type} [DecidableEq κ]
    (m1 m2 : List (κ × α)) (k : κ) :
    lookupKeyG (m1 ++ m2) k =
      (lookupKeyG m1 k).orElse (fun _ => lookupKeyG m2 k) := by
  induction m1 with
  | nil => simp [lookupKeyG]
  | cons e rest ih =>
    obtain ⟨k0, v0⟩ := e
    by_cases he : k0 = k
    · simp [lookupKeyG, List.find?, he]
    · simpa [lookupKeyG, List.find?, he] using ih

theorem getLast?_cons_getD {α : Type} (a : α) (l : List α) :
    (a :: l).getLast? = some ((l.getLast?).getD a) := by
  induction l generalizing a with
  | nil => rfl
  | cons b t ih => simp [List.getLast?_cons_cons, ih]

theorem foldl_preserves {α β : Type} (P : β → Prop) (f : β → α → β)
    (hf : ∀ st a, P st → P (f st a)) :
    ∀ (l : List α) (st : β), P st → P (l.foldl f st) := by
  intro l
  induction l with
  | nil => intro st h; exact h
  | cons a as ih => intro st h; exact ih _ (hf st a h)

theorem dedupeFold_lookup (k : String) :
    ∀ (ps : List PeriodCand) (m : List (String × PeriodCand)),
      lookupKeyG (ps.foldl dedupeStep m) k = dedupSpecLookup (lookupKeyG m k) ps k := by
  intro ps
  induction ps with
  | nil =>
    intro m
    rw [List.foldl_nil]
    cases lookupKeyG m k <;> rfl
  | cons p rest ih =>
    intro m
    rw [List.foldl_cons, ih (dedupeStep m p)]
    by_cases hk : keyOf p = k
    · have hwk : withKey (p :: rest) k = p :: withKey rest k := by
        simp [withKey, List.filter_cons, hk]
      by_cases hsp : jsStartsWith p.source "special"
      · have hsk : specialsOf (p :: rest) k = p :: specialsOf rest k := by
          simp [specialsOf, hwk, List.filter_cons, hsp]
        cases hmv : lookupKeyG m k with
        | none =>
          have hstep : dedupeStep m p = m ++ [(keyOf p, p)] := by
            unfold dedupeStep
            rw [hk, hmv]
            simp
          have hl : lookupKeyG (m ++ [(keyOf p, p)]) k = some p := by
            rw [lookupKeyG_append, hmv]
            simp [lookupKeyG, List.find?, hk]
          rw [hstep, hl]
          unfold dedupSpecLookup
          rw [hsk, getLast?_cons_getD]
          cases hgl : (specialsOf rest k).getLast? <;> simp [hgl]
        | some v =>
          have hstep : dedupeStep m p = setKeyG m k p := by
            unfold dedupeStep
            rw [hk, hmv]
            simp [hsp]
          rw [hstep, lookupKeyG_setKeyG_self]
          unfold dedupSpecLookup
          rw [hsk, getLast?_cons_getD]
          cases hgl : (specialsOf rest k).getLast? <;> simp [hgl]
      · have hsk : specialsOf (p :: rest) k = specialsOf rest k := by
          simp [specialsOf, hwk, List.filter_cons, hsp]
        cases hmv : lookupKeyG m k with
        | none =>
          have hstep : dedupeStep m p = m ++ [(keyOf p, p)] := by
            unfold dedupeStep
            rw [hk, hmv]
            simp
          have hl : lookupKeyG (m ++ [(keyOf p, p)]) k = some p := by
            rw [lookupKeyG_append, hmv]
            simp [lookupKeyG, List.find?, hk]
          rw [hstep, hl]
          unfold dedupSpecLookup
          rw [hsk, hwk]
          cases hgl : (specialsOf rest k).getLast? <;> simp [hgl]
        | some v =>
          have hstep : dedupeStep m p = m := by
            unfold dedupeStep
            rw [hk, hmv]
            simp [hsp]
          rw [hstep, hmv]
          unfold dedupSpecLookup
          rw [hsk]
    · have hwk : withKey (p :: rest) k = withKey rest k := by
        simp [withKey, List.filter_cons, hk]
      have hsk : specialsOf (p :: rest) k = specialsOf rest k := by
        simp [specialsOf, hwk]
      have hstep : lookupKeyG (dedupeStep m p) k = lookupKeyG m k := by
        unfold dedupeStep
        by_cases h1 : (lookupKeyG m (keyOf p)).isSome
        · rw [if_pos h1]
          by_cases h2 : jsStartsWith p.source "special"
          · rw [if_pos h2]
            exact lookupKeyG_setKeyG_ne m (keyOf p) p k (fun he => hk he.symm)
          · rw [if_neg h2]
        · rw [if_neg h1, lookupKeyG_append]
          have hz : lookupKeyG [(keyOf p, p)] k = none := by
            simp [lookupKeyG, List.find?, hk]
          rw [hz]
          cases lookupKeyG m k <;> rfl
      rw [hstep]
      unfold dedupSpecLookup
      rw [hsk, hwk]

theorem setKeyG_keyOf (k : String) (p : PeriodCand) (hp : keyOf p = k) :
    ∀ (m : List (String × PeriodCand)), (∀ e ∈ m, keyOf e.2 = e.1) →
      ∀ e ∈ setKeyG m k p, keyOf e.2 = e.1 := by
  intro m
  induction m with
  | nil =>
    intro _ e he
    have : e = (k, p) := by simpa [setKeyG] using he
    rw [this]
    exact hp
  | cons e0 rest ih =>
    obtain ⟨k0, v0⟩ := e0
    intro h e he
    by_cases hk : k0 = k
    · subst hk
      simp only [setKeyG, if_pos rfl] at he
      rcases List.mem_cons.mp he with h1 | h1
      · rw [h1]
        exact hp
      · exact h e (List.mem_cons_of_mem _ h1)
    · simp only [setKeyG, if_neg hk] at he
      rcases List.mem_cons.mp he with h1 | h1
      · rw [h1]
        exact h (k0, v0) (List.mem_cons_self _ _)
      · exact ih (fun e2 he2 => h e2 (List.mem_cons_of_mem _ he2)) e h1

theorem dedupeStep_keys (m : List (String × PeriodCand)) (p : PeriodCand)
    (h : ∀ e ∈ m, keyOf e.2 = e.1) : ∀ e ∈ dedupeStep m p, keyOf e.2 = e.1 := by
  unfold dedupeStep
  by_cases h1 : (lookupKeyG m (keyOf p)).isSome
  · rw [if_pos h1]
    by_cases h2 : jsStartsWith p.source "special"
    · rw [if_pos h2]
      exact setKeyG_keyOf (keyOf p) p rfl m h
    · rw [if_neg h2]
      exact h
  · rw [if_neg h1]
    intro e he
    rcases List.mem_append.mp he with h3 | h3
    · exact h e h3
    · have : e = (keyOf p, p) := by simpa using h3
      rw [this]

theorem dedupeMap_keys (ps : List PeriodCand) :
    ∀ e ∈ dedupeMap ps, keyOf e.2 = e.1 := by
  rw [dedupeMap]
  exact foldl_preserves (fun m => ∀ e ∈ m, keyOf e.2 = e.1) dedupeStep
    (fun m p h => dedupeStep_keys m p h) ps []
    (fun e he => absurd he (List.not_mem_nil e))

theorem find?_values_eq_lookup (k : String) :
    ∀ (m : List (String × PeriodCand)), (∀ e ∈ m, keyOf e.2 = e.1) →
      (m.map (fun e => e.2)).find? (fun q => keyOf q = k) = lookupKeyG m k := by
  intro m
  induction m with
  | nil => intro _; rfl
  | cons e0 rest ih =>
    obtain ⟨k0, v0⟩ := e0
    intro h
    have hhead : keyOf v0 = k0 := h (k0, v0) (List.mem_cons_self _ _)
    by_cases hk : k0 = k
    · have hv : keyOf v0 = k := by rw [hhead]; exact hk
      simp [lookupKeyG, List.find?, hk, hv]
    · have hv : ¬(keyOf v0 = k) := by rw [hhead]; exact hk
      simpa [lookupKeyG, List.find?, hk, hv] using
        ih (fun e2 he2 => h e2 (List.mem_cons_of_mem _ he2))

/-- C6. Amended dedup property: within the resolver's deduplication by
`(period, className)` key, the surviving entry for a key is the last
special-tagged candidate when one exists (a special entry overwrites
whatever is stored, including an earlier special entry), and otherwise
the FIRST candidate with that key — duplicate non-special entries never
overwrite, so it is first-write-wins, not last-write-wins. -/
theorem c6_dedup_characterization (ps : List PeriodCand) (k : String) :
    (dedupePeriods ps).find? (fun q => keyOf q = k) = dedupSpecLookup none ps k := by
  have h1 := find?_values_eq_lookup k (dedupeMap ps) (dedupeMap_keys ps)
  rw [dedupePeriods, h1, dedupeMap, dedupeFold_lookup k ps []]
  rfl

theorem initRunState_good (logs : List ProcessLog) : GoodState (initRunState logs) :=
  ⟨fun a ha => absurd ha (List.not_mem_nil a), List.Pairwise.nil,
   fun _ => rfl, fun _ => Nat.zero_le _⟩

theorem foldl_min_mem (w : String → Nat) :
    ∀ (ts : List Teacher) (t : Teacher),
      ts.foldl (fun best c => if w c.phone < w best.phone then c else best) t ∈ t :: ts := by
  intro ts
  induction ts with
  | nil => intro t; simp
  | cons b bs ih =>
    intro t
    simp only [List.foldl_cons]
    rcases List.mem_cons.mp (ih (if w b.phone < w t.phone then b else t)) with h1 | h1
    · rw [h1]
      by_cases hb : w b.phone < w t.phone
      · simp [hb]
      · simp [hb]
    · exact List.mem_cons_of_mem _ (List.mem_cons_of_mem _ h1)

theorem selectLeastLoaded_mem (w : String → Nat) (l : List Teacher) (t : Teacher)
    (h : selectLeastLoaded w l = some t) : t ∈ l := by
  cases l with
  | nil => exact absurd h (by simp [selectLeastLoaded])
  | cons a as =>
    simp only [selectLeastLoaded, Option.some.injEq] at h
    rw [← h]
    exact foldl_min_mem w as a

theorem eligible_true_facts (schedules : List (String × List SchedEntry))
    (day : String) (st : RunState) (period : Int) (sub : Teacher)
    (h : eligible schedules day st period sub = true) :
    period ∉ st.ap sub.phone ∧ st.wl sub.phone < MAX_DAILY_WORKLOAD := by
  unfold eligible at h
  by_cases h1 : period ∈ st.ap sub.phone
  · rw [if_pos h1] at h
    exact absurd h (by simp)
  · rw [if_neg h1] at h
    by_cases h2 : MAX_DAILY_WORKLOAD ≤ st.wl sub.phone
    · rw [if_pos h2] at h
      exact absurd h (by simp)
    · exact ⟨h1, Nat.lt_of_not_le h2⟩

theorem processPeriod_good (schedules : List (String × List SchedEntry))
    (day : String) (subsArr : List Teacher) (teacherName : String)
    (st : RunState) (pc : PeriodCand) (hg : GoodState st) :
    GoodState (processPeriod schedules day subsArr teacherName st pc) := by
  unfold processPeriod
  cases hsel : selectLeastLoaded st.wl (subsArr.filter (eligible schedules day st pc.period)) with
  | none => exact hg
  | some sel =>
    have hmem := selectLeastLoaded_mem _ _ _ hsel
    have helig : eligible schedules day st pc.period sel = true :=
      (List.mem_filter.mp hmem).2
    obtain ⟨hap, hwl⟩ := eligible_true_facts _ _ _ _ _ helig
    obtain ⟨g1, g2, g3, g4⟩ := hg
    refine ⟨?_, ?_, ?_, ?_⟩
    · intro a ha
      rcases List.mem_append.mp ha with hold | hnew
      · have := g1 a hold
        by_cases hph : a.substitutePhone = sel.phone
        · show a.period ∈ if a.substitutePhone = sel.phone then
            pc.period :: st.ap a.substitutePhone else st.ap a.substitutePhone
          rw [if_pos hph]
          exact List.mem_cons_of_mem _ this
        · show a.period ∈ if a.substitutePhone = sel.phone then
            pc.period :: st.ap a.substitutePhone else st.ap a.substitutePhone
          rw [if_neg hph]
          exact this
      · have ha' : a = SubstituteAssignment.mk teacherName pc.period pc.className
            sel.name sel.phone := by simpa using hnew
        subst ha'
        show pc.period ∈ if sel.phone = sel.phone then
          pc.period :: st.ap sel.phone else st.ap sel.phone
        rw [if_pos rfl]
        exact List.mem_cons_self _ _
    · rw [List.pairwise_append]
      refine ⟨g2, List.pairwise_singleton _ _, ?_⟩
      intro a hold b hb
      have hb' : b = SubstituteAssignment.mk teacherName pc.period pc.className
          sel.name sel.phone := by simpa using hb
      subst hb'
      intro hclash
      apply hap
      have := g1 a hold
      rw [hclash.1, hclash.2] at this
      exact this
    · intro p
      rw [List.countP_append]
      by_cases hph : p = sel.phone
      · show (if p = sel.phone then st.wl p + 1 else st.wl p) = _
        rw [if_pos hph, g3 p]
        have : List.countP (fun a => decide (a.substitutePhone = p))
            [SubstituteAssignment.mk teacherName pc.period pc.className
              sel.name sel.phone] = 1 := by
          simp [List.countP_cons, hph.symm]
        omega
      · show (if p = sel.phone then st.wl p + 1 else st.wl p) = _
        rw [if_neg hph, g3 p]
        have : List.countP (fun a => decide (a.substitutePhone = p))
            [SubstituteAssignment.mk teacherName pc.period pc.className
              sel.name sel.phone] = 0 := by
          simp [List.countP_cons]
          exact fun he => hph he.symm
        omega
    · intro p
      by_cases hph : p = sel.phone
      · show (if p = sel.phone then st.wl p + 1 else st.wl p) ≤ _
        rw [if_pos hph, hph]
        omega
      · show (if p = sel.phone then st.wl p + 1 else st.wl p) ≤ _
        rw [if_neg hph]
        exact g4 p

theorem processTeacher_good (tc : List (String × SchedEntry))
    (tt : List TimetableEntry) (teachers : List Teacher)
    (schedules : List (String × List SchedEntry)) (day : String)
    (subsArr : List Teacher) (st : RunState) (teacherName : String)
    (hg : GoodState st) :
    GoodState (processTeacher tc tt teachers schedules day subsArr st teacherName) := by
  unfold processTeacher
  split
  · exact hg
  · exact foldl_preserves GoodState _
      (fun s pc h => processPeriod_good schedules day subsArr teacherName s pc h)
      _ _ hg

theorem runLoop_good (tc : List (String × SchedEntry)) (tt : List TimetableEntry)
    (teachers : List Teacher) (schedules : List (String × List SchedEntry))
    (day : String) (absent : List String) (logs : List ProcessLog) :
    GoodState (absent.foldl
      (processTeacher tc tt teachers schedules day (createSubstituteArray teachers))
      (initRunState logs)) :=
  foldl_preserves GoodState _
    (fun s n h => processTeacher_good tc tt teachers schedules day
      (createSubstituteArray teachers) s n h)
    absent _ (initRunState_good logs)

/-- C1. Amended invariant: for every run, no two distinct assignment
records share both the same `period` and the same `substitutePhone` — the
engine keys its per-substitute assigned-period sets by phone, so the
uniqueness guarantee is per phone, not per substitute name. -/
theorem c1_no_period_phone_clash (st : ManagerState) (ext : ExtData)
    (fs : FileState) (date : String) (absent : List String) :
    List.Pairwise NoClash (autoAssignSubstitutesM st ext fs date absent).1.assignments := by
  show List.Pairwise NoClash
    (autoAssignCore st.teacherClasses st.timetable ext fs date absent).1.assignments
  unfold autoAssignCore runEngine
  cases getDayFromDate date with
  | error e => exact List.Pairwise.nil
  | ok day =>
    cases ext.teachersData with
    | error e => exact List.Pairwise.nil
    | ok teachers =>
      cases ext.schedulesData with
      | error e => exact List.Pairwise.nil
      | ok schedules =>
        exact (runLoop_good st.teacherClasses st.timetable teachers schedules
          day absent _).2.1

/-- C2. Amended invariant: for every run and every phone number, the
number of recorded assignments carrying that `substitutePhone` is at most
the daily workload cap of 6 — the cap is enforced on the per-phone
workload counter, so it bounds assignments per phone, not per substitute
name. -/
theorem c2_per_phone_workload_le_cap (st : ManagerState) (ext : ExtData)
    (fs : FileState) (date : String) (absent : List String) (phone : String) :
    (autoAssignSubstitutesM st ext fs date absent).1.assignments.countP
      (fun a => decide (a.substitutePhone = phone)) ≤ MAX_DAILY_WORKLOAD := by
  show (autoAssignCore st.teacherClasses st.timetable ext fs date absent).1.assignments.countP
      (fun a => decide (a.substitutePhone = phone)) ≤ MAX_DAILY_WORKLOAD
  unfold autoAssignCore runEngine
  cases getDayFromDate date with
  | error e => exact Nat.zero_le _
  | ok day =>
    cases ext.teachersData with
    | error e => exact Nat.zero_le _
    | ok teachers =>
      cases ext.schedulesData with
      | error e => exact Nat.zero_le _
      | ok schedules =>
        have hg := runLoop_good st.teacherClasses st.timetable teachers schedules
          day absent
          ([ProcessLog.mk "ProcessStart" "Starting auto-assignment process" "info"] ++
            [ProcessLog.mk "DayCalculation" ("Calculated day: " ++ day) "info"] ++
            [ProcessLog.mk "DataLoading" "Loaded required data" "info"])
        calc _ = _ := (hg.2.2.1 phone).symm
        _ ≤ MAX_DAILY_WORKLOAD := hg.2.2.2 phone

/-- C8 witness: concrete two-date save sequence exercising the amended
property. -/
theorem c8_warnings_accumulate_logs_latest_witness :
    lookupKeyG
        ((saveWarnings (saveLogs (saveWarnings (saveLogs fsEmpty
            [ProcessLog.mk "A" "a" "info"] "2025-01-06") ["w1"] "2025-01-06")
          [ProcessLog.mk "B" "b" "info"] "2025-01-07")
          ["w2"] "2025-01-07").warningsFile.getD []) "2025-01-06" = some ["w1"] ∧
    lookupKeyG
        ((saveWarnings (saveLogs (saveWarnings (saveLogs fsEmpty
            [ProcessLog.mk "A" "a" "info"] "2025-01-06") ["w1"] "2025-01-06")
          [ProcessLog.mk "B" "b" "info"] "2025-01-07")
          ["w2"] "2025-01-07").warningsFile.getD []) "2025-01-07" = some ["w2"] ∧
    (saveWarnings (saveLogs (saveWarnings (saveLogs fsEmpty
            [ProcessLog.mk "A" "a" "info"] "2025-01-06") ["w1"] "2025-01-06")
          [ProcessLog.mk "B" "b" "info"] "2025-01-07")
          ["w2"] "2025-01-07").logsFile =
      some [("2025-01-07", [ProcessLog.mk "B" "b" "info"])] ∧
    lookupKeyG ((saveWarnings (saveWarnings fsEmpty ["w1"] "2025-01-06")
          ["w2"] "2025-01-06").warningsFile.getD []) "2025-01-06" = some ["w2"] :=
  c8_warnings_accumulate_logs_latest fsEmpty "2025-01-06" "2025-01-07"
    [ProcessLog.mk "A" "a" "info"] [ProcessLog.mk "B" "b" "info"]
    ["w1"] ["w2"] (by decide)

end SubMgr
